import Mathlib

/-!
# Verification of the in-silico-BNN core against its specification

This file shallowly embeds the core data model and operations of the
`in-silico-BNN` repository (a stochastic spiking network driving a Pong
agent) and proves or refutes the frozen claims about it.

Conventions of the embedding:

* Machine floats are modelled by `ℚ` wherever the Python code only ever
  performs field operations and comparisons on them (states, probabilities,
  means); the connection-strengthening exponent of `optimize_connections`
  and the speed norms of `Ball` genuinely need real powers and square roots,
  so those two components are modelled over `ℝ`.
* The "no-edge" sentinel, `np.nan` in the source, is modelled by `Option`:
  `none` is the sentinel.  All numpy arithmetic used on the conformation
  propagates NaN (products, affine maps, and real powers with a strictly
  positive exponent all map NaN to NaN), which `Option.map` reflects.
* numpy's PCG generator is modelled as an abstract draw stream `ℕ → ℚ`
  together with a cursor; each `uniform()` call reads the stream at the
  cursor and advances it.
* A Python method that can raise is modelled as a function returning the
  mutated object together with an optional error; mutations performed
  before the raise are kept, as in Python.
-/

set_option maxHeartbeats 1000000

namespace InSilicoBNN

/-- Abstract random generator: a fixed stream of uniform draws plus the
position of the next unread draw (models `numpy.random.Generator.uniform`). -/
structure RNG where
  seq : ℕ → ℚ
  pos : ℕ
  deriving Inhabited

/-- One call to `generator.uniform()`: read the stream, advance the cursor. -/
def RNG.next (g : RNG) : ℚ × RNG :=
  (g.seq g.pos, ⟨g.seq, g.pos + 1⟩)

/-- `network/regions.py`, class `Region`: a named group of neurons holding a
state vector.  `firstIndex` is the first global neuron index, assigned by
`Region.set_neurons_index` during network assembly; `internal` distinguishes
`InternalRegion` from `ExternalRegion`. -/
structure Region where
  name : String
  size : ℕ
  internal : Bool
  firstIndex : ℕ
  state : List ℚ
  deriving Inhabited, DecidableEq

/-- `network/network.py`, class `Network` (the fields the claims need).
`conformation` is the dense `N×N` matrix `C[i][j]`, `none` being the NaN
"no-edge" sentinel.  `cachedState` is the `_state` attribute: it is set by
`__init__` and `set_state` but — exactly as in the source — *not* refreshed
by `propagate_signal`.  `stateHistory` is the `_state_history_` deque,
oldest snapshot first. -/
structure Network where
  regions : List Region
  recoveryRatio : ℚ
  stateHistorySize : ℕ
  conformation : List (List (Option ℚ))
  cachedState : List ℚ
  stateHistory : List (List ℚ)
  deriving Inhabited

/-- `Network.get_state`: concatenation of the region states in assembly
order. -/
def Network.getState (net : Network) : List ℚ :=
  (net.regions.map Region.state).flatten

/-- Errors visible to the claims.  `commError` is `NetworkCommunicationError`
carrying its `faulty_regions`; `typeError` stands for a Python `TypeError`
raised by a call with missing required arguments. -/
inductive NetErr where
  | commError (faultyRegions : List String)
  | typeError
  deriving DecidableEq

instance {ε α : Type} [DecidableEq ε] [DecidableEq α] : DecidableEq (Except ε α) := fun a b =>
  match a, b with
  | .ok x, .ok y => if h : x = y then .isTrue (by simp [h]) else .isFalse (by simp [h])
  | .error x, .error y => if h : x = y then .isTrue (by simp [h]) else .isFalse (by simp [h])
  | .ok _, .error _ => .isFalse (by simp)
  | .error _, .ok _ => .isFalse (by simp)

/-- Appending to the `_state_history_` deque (`maxlen = H`): the new snapshot
goes to the right, oldest entries fall off the left. -/
def pushHistory (maxlen : ℕ) (h : List (List ℚ)) (x : List ℚ) : List (List ℚ) :=
  let h' := h ++ [x]
  h'.drop (h'.length - maxlen)

/-- `np.nan_to_num(conformation, nan=1.0)` on one entry: sentinels become
`1.0` (no contribution to firing). -/
def nanToOne (e : Option ℚ) : ℚ := e.getD 1

/-- Row `i` of `1 - np.prod(probability_matrix ** triggered_neurons, axis=1)`:
the per-target firing probability.  The exponent `triggered_neurons[j]` is
the indicator of `state[j] == 1.0`, so the entry `C[i][j]` contributes as a
factor exactly when neuron `j` is triggered (and `x ^ 0 = 1` otherwise). -/
def pFireRow (row : List (Option ℚ)) (states : List ℚ) : ℚ :=
  1 - ((row.zip states).map fun e => if e.2 = 1 then nanToOne e.1 else 1).prod

/-- The whole firing-probability vector of `propagate_signal`, as a function
of the global neuron index (rows out of range give probability `0`, which
well-formed networks never access). -/
def pFireAt (C : List (List (Option ℚ))) (states : List ℚ) (i : ℕ) : ℚ :=
  pFireRow (C.getD i []) states

/-- The per-neuron branch of `Network.propagate_signal` (network.py lines
174–196): returns the value appended to `updated_state` (or `none` when the
neuron state matches no branch and nothing is appended) and the generator
after the branch. -/
def stepNeuron (ratio p : ℚ) (x : ℚ) (g : RNG) : Option ℚ × RNG :=
  if x = 1 then (some ratio, g)
  else if x = ratio then
    (some (if (g.next).1 ≤ p then ratio else 0), (g.next).2)
  else if x = 0 then
    (some (if (g.next).1 ≤ p then 1 else 0), (g.next).2)
  else if x = -1 then (some (-1), g)
  else (none, g)

/-- The inner loop of `propagate_signal` over one region's
`get_indexed_state()`: neurons in ascending index order, `idx` being the
global index of the first one. -/
def updateRegionState (ratio : ℚ) (pv : ℕ → ℚ) (idx : ℕ) (xs : List ℚ) (g : RNG) :
    List ℚ × RNG :=
  match xs with
  | [] => ([], g)
  | x :: rest =>
    let s := stepNeuron ratio (pv idx) x g
    let t := updateRegionState ratio pv (idx + 1) rest s.2
    (s.1.toList ++ t.1, t.2)

/-- The outer loop of `propagate_signal` over `self.regions`: regions whose
name is in the sensory signal are skipped; any other region is rewritten by
the inner loop, and `region.set_state(updated_state)` aborts the loop with a
size-mismatch `NetworkCommunicationError` when the rebuilt state is shorter
than the region (mutations already made are kept). -/
def updateRegions (ratio : ℚ) (pv : ℕ → ℚ) (clamped : List String) :
    List Region → RNG → List Region × RNG × Option NetErr
  | [], g => ([], g, none)
  | r :: rest, g =>
    if r.name ∈ clamped then
      let t := updateRegions ratio pv clamped rest g
      (r :: t.1, t.2.1, t.2.2)
    else
      let s := updateRegionState ratio pv r.firstIndex r.state g
      if s.1.length = r.size then
        let t := updateRegions ratio pv clamped rest s.2
        ({ r with state := s.1 } :: t.1, t.2.1, t.2.2)
      else
        (r :: rest, s.2, some (.commError [r.name]))

/-- `self._region_dict_[name]`: the region of that name (`__init__` forbids
duplicates, so the first match is the only one). -/
def findRegion? (name : String) : List Region → Option Region
  | [] => none
  | r :: rest => if r.name = name then some r else findRegion? name rest

/-- The clamping loop of `propagate_signal` (lines 156–163): each signal
entry either replaces the state of the named region (`Region.set_state`,
which itself raises a size-mismatch `NetworkCommunicationError`, aborting the
loop at once since only `KeyError` is caught) or, when no region has that
name, appends the name to `faulty_regions`. -/
def clampLoop (rs : List Region) (faulty : List String) :
    List (String × List ℚ) → List Region × List String × Option NetErr
  | [] => (rs, faulty, none)
  | (name, v) :: rest =>
    match findRegion? name rs with
    | some r =>
      if v.length = r.size then
        clampLoop (rs.map fun r' => if r'.name = name then { r' with state := v } else r') faulty rest
      else
        (rs, faulty, some (.commError [name]))
    | none => clampLoop rs (faulty ++ [name]) rest

/-- Result of `propagate_signal`: the network object after the call, the
generator after the call, and the raised error if any. -/
structure PropResult where
  net : Network
  rng : RNG
  err : Option NetErr

/-- The propagation phase of `propagate_signal` (lines 167–198), reached once
the sensory signal has been applied without error: the triggering
probabilities are computed from the *cached* `_state` attribute, every region
not named in the signal is updated, and on success `get_state()` is pushed
onto the state history. -/
def propagateCore (net : Network) (g : RNG) (clamped : List String) : PropResult :=
  let pv := pFireAt net.conformation net.cachedState
  let t := updateRegions net.recoveryRatio pv clamped net.regions g
  match t.2.2 with
  | some err => ⟨{ net with regions := t.1 }, t.2.1, some err⟩
  | none =>
    let newState := (t.1.map Region.state).flatten
    let hist := pushHistory net.stateHistorySize net.stateHistory newState
    ⟨{ net with regions := t.1, stateHistory := hist }, t.2.1, none⟩

/-- `Network.propagate_signal` (network.py lines 149–198).  The sensory
signal is an ordered association list (Python `dict`s iterate in insertion
order).  With a signal, the clamping loop runs first; if it raised, or if it
collected unknown names, the error is raised with all mutations so far kept
and no draw consumed. -/
def propagate_signal (net : Network) (g : RNG)
    (signal : Option (List (String × List ℚ))) : PropResult :=
  match signal with
  | none => propagateCore net g []
  | some sig =>
    let c := clampLoop net.regions [] sig
    let net1 := { net with regions := c.1 }
    match c.2.2 with
    | some err => ⟨net1, g, some err⟩
    | none =>
      if c.2.1 = [] then propagateCore net1 g (sig.map Prod.fst)
      else ⟨net1, g, some (.commError c.2.1)⟩

/-- The resolution loop of `Network.get_motor_signal` (network.py lines
305–310): look every accessed name up in `_region_dict_`, collecting the
region's neuron-index block as `(firstIndex, size)`.  On the first unknown
name the handler executes `raise NetworkCommunicationError(msg)` — but that
constructor *requires* a `faulty_regions` argument (exceptions.py line 11),
so Python raises `TypeError` instead of the intended error. -/
def resolveRegions (rs : List Region) : List String → Except NetErr (List (ℕ × ℕ))
  | [] => .ok []
  | n :: rest =>
    match findRegion? n rs with
    | some r => (resolveRegions rs rest).map (fun l => (r.firstIndex, r.size) :: l)
    | none => .error .typeError

/-- `np.mean(state[list_indexes])` for a contiguous index block. -/
def sliceMean (s : List ℚ) (first size : ℕ) : ℚ :=
  ((s.drop first).take size).sum / (size : ℚ)

/-- `Network.get_motor_signal` (network.py lines 303–317): accumulate, over
the state history, the per-snapshot mean of each accessed region's block into
a vector, then divide by `state_history_size`. -/
def get_motor_signal (net : Network) (accessed : List String) : Except NetErr (List ℚ) :=
  match resolveRegions net.regions accessed with
  | .error e => .error e
  | .ok ranges =>
    let motor0 : List ℚ := List.replicate accessed.length 0
    let motor := net.stateHistory.foldl
      (fun acc s => (acc.zip ranges).map fun p => p.1 + sliceMean s p.2.1 p.2.2) motor0
    .ok (motor.map fun m => m / (net.stateHistorySize : ℚ))

/-- Errors of `Network.__init__`: `initError` is `NetworkInitializationError`,
`valueError` a plain Python `ValueError`. -/
inductive InitErr where
  | valueError
  | initError
  deriving DecidableEq

/-- The duplicate-name loop of `Network.__init__` (network.py lines 68–74):
walk the region names accumulating `known_regions`, raising
`NetworkInitializationError` at the first repeat. -/
def dupNameCheck (known : List String) : List String → Option InitErr
  | [] => none
  | n :: rest =>
    if n ∈ known then some .initError
    else dupNameCheck (known ++ [n]) rest

/-- The validation prefix of `Network.__init__` (network.py lines 64–81) on
the region names and the connectome shape (source name ↦ target names).
Line 78 computes `referenced_regions.union(target keys)` but discards the
result (`set.union` is not in-place), so — faithfully to the source — only
the connectome's *source* keys are ever checked for existence, and unknown
source names raise a plain `ValueError`, not `NetworkInitializationError`. -/
def networkInitCheck (regionNames : List String)
    (connectome : List (String × List String)) : Except InitErr Unit :=
  if regionNames = [] then .error .valueError
  else
    match dupNameCheck [] regionNames with
    | some e => .error e
    | none =>
      let referenced := connectome.map Prod.fst
      let unknown := referenced.filter fun n => decide (n ∉ regionNames)
      if unknown = [] then .ok () else .error .valueError

/-- Errors of the graph-generation functors.  `unboundLocalError` models the
Python `UnboundLocalError` raised when `return clipped_conformation` runs
although the while-loop body never executed; `outOfFuel` marks an unfinished
while-loop (the embedding is fuel-indexed, the source loop is unbounded). -/
inductive GenErr where
  | valueError
  | unboundLocalError
  | outOfFuel
  deriving DecidableEq

/-- `conformation.mean(axis=1)` for one row. -/
def rowMean (row : List ℚ) : ℚ := row.sum / (row.length : ℚ)

/-- One row of `np.clip((μ/avg) * conformation, 0.0, 1.0)`.  (In numpy a zero
`avg` yields `inf`; the claims only evaluate this on rows with nonzero
mean, where `ℚ` division agrees with float division.) -/
def scaleClipRow (μ avg : ℚ) (row : List ℚ) : List ℚ :=
  row.map fun x => min (max ((μ / avg) * x) 0) 1

/-- The while-loop of `graph_generation_fn` (graph_generation.py lines
26–29), entered with the current row averages: scale the *original* draw by
`μ/avg` row-wise, clip, recompute the averages and loop while any row is off
by at least the tolerance.  Returns the last clipped matrix. -/
def fixedAvgLoop (μ tol : ℚ) (conf : List (List ℚ)) : ℕ → List ℚ → Except GenErr (List (List ℚ))
  | 0, _ => .error .outOfFuel
  | fuel + 1, avgs =>
    let clipped := (conf.zip avgs).map fun p => scaleClipRow μ p.2 p.1
    let newAvgs := clipped.map rowMean
    if newAvgs.any fun a => tol ≤ |a - μ| then fixedAvgLoop μ tol conf fuel newAvgs
    else .ok clipped

/-- `generator.uniform(size=s)` for one row: `s` consecutive draws. -/
def drawRow (g : RNG) : ℕ → List ℚ × RNG
  | 0 => ([], g)
  | n + 1 =>
    let t := drawRow (g.next).2 n
    ((g.next).1 :: t.1, t.2)

/-- `generator.uniform(size=(t, s))`: a `t × s` matrix of draws, row-major. -/
def drawMatrix (g : RNG) : ℕ → ℕ → List (List ℚ) × RNG
  | 0, _ => ([], g)
  | t + 1, s =>
    let r := drawRow g s
    let m := drawMatrix r.2 t s
    (r.1 :: m.1, m.2)

/-- `fixed_average_transmission` applied to `(target_size, source_size)`
(graph_generation.py lines 11–31): the functor-creation check `0 < μ < 1`
(raising `ValueError`) followed by `graph_generation_fn`.  When the initial
draw's row averages are all already within tolerance, the while-loop body
never runs and `return clipped_conformation` raises `UnboundLocalError`
(`clipped_conformation` is only assigned inside the loop). -/
def fixed_average_transmission (μ tol : ℚ) (g : RNG) (t s : ℕ) (fuel : ℕ) :
    Except GenErr (List (List ℚ)) :=
  if 0 < μ ∧ μ < 1 then
    let (conf, _) := drawMatrix g t s
    let avgs := conf.map rowMean
    if avgs.any fun a => tol ≤ |a - μ| then fixedAvgLoop μ tol conf fuel avgs
    else .error .unboundLocalError
  else .error .valueError

/-- The observable actions of one `Pong.check_ball_collisions` dispatch.
`punishCall` stands for `self.network.punish(self._generator_)`,
`wallBounce` for the reflection of the ball speed about the horizontal axis,
`resolveWithPaddle`/`resolveWithAgent` for `resolve_collision_with_paddle`
on the PID paddle resp. the agent. -/
inductive PongEvent where
  | wallBounce
  | punishCall
  | logFailure
  | logSuccess
  | regenerateBall
  | resetTimer
  | resolveWithPaddle
  | resolveWithAgent
  deriving DecidableEq

/-- The geometry read by the dispatch guards of `check_ball_collisions`. -/
structure PongGeom where
  ballX : ℚ
  ballY : ℚ
  radius : ℚ
  height : ℚ
  width : ℚ

/-- `Pong.check_ball_collisions` (pong.py lines 92–112) as the trace of
actions it performs, with the geometric paddle-collision tests supplied as
the booleans the source computes via `self.ball.collides_with(...)`.
The branches are exclusive and tested in source order.  In the right-wall
branch and the agent-collision branch the *first* statement is
`self.network.reward()` — but `Network.reward(self, generator)` (network.py
line 219) requires a generator, so Python raises `TypeError` there before
any further action: both branches produce an empty trace and an error. -/
def check_ball_collisions (geo : PongGeom) (collidesPaddle collidesAgent : Bool) :
    List PongEvent × Option NetErr :=
  if geo.ballY ≤ geo.radius ∨ geo.height - geo.ballY ≤ geo.radius then
    ([.wallBounce], none)
  else if geo.ballX ≤ geo.radius then
    ([.punishCall, .logFailure, .regenerateBall, .resetTimer], none)
  else if geo.width - geo.ballX ≤ geo.radius then
    ([], some .typeError)
  else if collidesPaddle then
    ([.resolveWithPaddle], none)
  else if collidesAgent then
    ([], some .typeError)
  else ([], none)

/-- The dispatch the specification describes for the right wall and the
agent paddle ("network.reward; regenerate ball; reset translator timer" and
"network.reward; log success; resolve as wall-bounce"), for comparison. -/
def specRightWallTrace : List PongEvent := [.regenerateBall, .resetTimer]

/-- The internal conformation matrix of `optimize_connections`, over `ℝ`
(`none` = NaN sentinel). -/
abbrev RMat := List (List (Option ℝ))

/-- Point update of a nested list (numpy's `M[i, j] = f(M[i, j])`; an
out-of-range index leaves the matrix unchanged, which well-formed calls never
exercise). -/
def listModify (f : α → α) : ℕ → List α → List α
  | _, [] => []
  | 0, x :: xs => f x :: xs
  | n + 1, x :: xs => x :: listModify f n xs

/-- `M[i][j] := f(M[i][j])`, sentinels staying sentinels (every `f` used by
`optimize_connections` maps NaN to NaN: affine maps, scalings and real
powers with positive exponent all propagate NaN). -/
def updEntry (M : RMat) (i j : ℕ) (f : ℝ → ℝ) : RMat :=
  listModify (listModify (Option.map f) j) i M

/-- The global decay of `optimize_connections` (network.py line 207):
`C ← α + (1 − α)·C` elementwise. -/
def decayMat (α : ℝ) (M : RMat) : RMat :=
  M.map fun row => row.map (Option.map fun x => α + (1 - α) * x)

/-- The inner neighbor loop of `optimize_connections` (network.py lines
210–215) for the triggered neuron `i`: weaken the outgoing edge
`C[neighbor, i]` by `(1 − ε)` for every neighbor, and for every neighbor
triggered in the previous step raise the incoming edge `C[i, neighbor]` to
the power `β`. -/
noncomputable def exploreStrengthen (ε β : ℝ) (i : ℕ) (lastState : List ℚ) (M : RMat) : RMat :=
  lastState.enum.foldl
    (fun M p =>
      let M1 := updEntry M p.1 i fun x => x * (1 - ε)
      if p.2 = 1 then updEntry M1 i p.1 (fun x => x ^ β) else M1)
    M

/-- `Network.optimize_connections` (network.py lines 200–217) on the
internal sub-matrix: decay first, then the double loop over the currently
triggered neurons and their neighbors. -/
noncomputable def optimize_connections (α ε β : ℝ)
    (internalState lastInternalState : List ℚ) (M : RMat) : RMat :=
  internalState.enum.foldl
    (fun M p => if p.2 = 1 then exploreStrengthen ε β p.1 lastInternalState M else M)
    (decayMat α M)

/-- 2D vectors of `simulation/geometry/vector.py`, over `ℝ`. -/
structure Vec2 where
  x : ℝ
  y : ℝ

/-- `Vector2D.norm`: the euclidean norm. -/
noncomputable def Vec2.norm (v : Vec2) : ℝ := Real.sqrt (v.x ^ 2 + v.y ^ 2)

/-- Scalar multiplication `c * v` (`Vector2D.__rmul__`). -/
def Vec2.smul (c : ℝ) (v : Vec2) : Vec2 := ⟨c * v.x, c * v.y⟩

/-- `simulation/elements/ball.py`, class `Ball`: circle center and radius,
speed, speed-norm envelope, acceleration. -/
structure Ball where
  center : Vec2
  radius : ℝ
  speed : Vec2
  speedRange : ℝ × ℝ
  accel : Vec2

/-- The error raised by `Ball.set_state` on an out-of-envelope speed
(a plain `ValueError`, "given speed value's norm is out of bound"). -/
inductive BallErr where
  | outOfBounds
  deriving DecidableEq

/-- `Element.set_state` (base_element.py lines 53–73): overwrite exactly the
fields that were passed. -/
def ballSetFields (b : Ball) (position speed acceleration : Option Vec2) : Ball :=
  { b with center := position.getD b.center, speed := speed.getD b.speed,
           accel := acceleration.getD b.accel }

open Classical in
/-- `Ball.set_state` (ball.py lines 46–52): when a speed is given, require
`min_speed < ‖speed‖ < max_speed` (both strict) before delegating to the
base `set_state`; otherwise raise with the ball unmodified. -/
noncomputable def Ball.set_state (b : Ball) (position speed acceleration : Option Vec2) :
    Except BallErr Ball :=
  match speed with
  | some v =>
    if b.speedRange.1 < v.norm ∧ v.norm < b.speedRange.2 then
      .ok (ballSetFields b position (some v) acceleration)
    else .error .outOfBounds
  | none => .ok (ballSetFields b position none acceleration)

open Classical in
/-- `Ball.adjust_speed` (ball.py lines 36–44): rescale the speed onto the
nearest envelope boundary when its norm leaves `[min_speed, max_speed]`. -/
noncomputable def Ball.adjust_speed (b : Ball) : Ball :=
  let n := b.speed.norm
  if n < b.speedRange.1 then { b with speed := Vec2.smul (b.speedRange.1 / n) b.speed }
  else if b.speedRange.2 < n then { b with speed := Vec2.smul (b.speedRange.2 / n) b.speed }
  else b

/-- `Ball.update` (ball.py lines 54–56): the base kinematic update (translate
by the speed, then add the acceleration to the speed) followed by
`adjust_speed`. -/
noncomputable def Ball.update (b : Ball) : Ball :=
  Ball.adjust_speed
    { b with center := ⟨b.center.x + b.speed.x, b.center.y + b.speed.y⟩,
             speed := ⟨b.speed.x + b.accel.x, b.speed.y + b.accel.y⟩ }

/-! ## Concrete instances

The nine-neuron network of `src/test/test_network.py` (an external region of
two neurons and an internal region of seven), its conformation after the
test's sentinel mask, and the constant-value mock generators the tests use. -/

/-- A generator whose `uniform()` always returns `c` (the tests' mock). -/
def constGen (c : ℚ) : RNG := ⟨fun _ => c, 0⟩

/-- Region-name comparisons appearing in the concrete evaluations, pre-reduced
(`norm_num` does not run the string-equality simproc, `simp` does). -/
lemma strEq_r2_r1 : ("region2" = "region1") = False := by simp

lemma strEq_r1_r2 : ("region1" = "region2") = False := by simp

lemma strEq_r1_zzz : ("region1" = "zzz") = False := by simp

lemma strEq_r2_zzz : ("region2" = "zzz") = False := by simp

lemma strEq_r1_nope : ("region1" = "nope") = False := by simp

lemma strEq_r2_nope : ("region2" = "nope") = False := by simp

/-- The masked `9×9` conformation of `test_network.py` (`0.8` where the mask
is finite, sentinel elsewhere). -/
def testConf : List (List (Option ℚ)) :=
  [[none, none, none, none, none, none, none, none, none],
   [none, none, none, none, none, none, none, none, none],
   [some 0.8, some 0.8, none, some 0.8, some 0.8, some 0.8, some 0.8, some 0.8, some 0.8],
   [none, none, some 0.8, none, some 0.8, some 0.8, some 0.8, some 0.8, some 0.8],
   [some 0.8, some 0.8, some 0.8, some 0.8, none, some 0.8, some 0.8, some 0.8, some 0.8],
   [none, none, some 0.8, some 0.8, some 0.8, none, some 0.8, some 0.8, some 0.8],
   [none, none, some 0.8, some 0.8, some 0.8, some 0.8, none, some 0.8, some 0.8],
   [some 0.8, some 0.8, some 0.8, some 0.8, some 0.8, some 0.8, some 0.8, none, some 0.8],
   [none, none, some 0.8, some 0.8, some 0.8, some 0.8, some 0.8, some 0.8, none]]

/-- The test network state `[1, 0, 1, 0.5, 0, 0, 0, 0.5, 1]`. -/
def testState : List ℚ := [1, 0, 1, 0.5, 0, 0, 0, 0.5, 1]

/-- The test network after `setUp` (`state_history_size = 2`, recovery ratio
`0.5`, state set to `testState`). -/
def testNet : Network :=
  { regions :=
      [⟨"region1", 2, false, 0, [1, 0]⟩,
       ⟨"region2", 7, true, 2, [1, 0.5, 0, 0, 0, 0.5, 1]⟩],
    recoveryRatio := 0.5,
    stateHistorySize := 2,
    conformation := testConf,
    cachedState := testState,
    stateHistory := [testState, testState] }

/-- A two-region network with all-zero states, used by the error-path
counterexamples. -/
def zeroNet : Network :=
  { regions :=
      [⟨"region1", 2, false, 0, [0, 0]⟩,
       ⟨"region2", 1, true, 2, [0]⟩],
    recoveryRatio := 0.5,
    stateHistorySize := 2,
    conformation := [[none, none, none], [none, none, none], [none, none, none]],
    cachedState := [0, 0, 0],
    stateHistory := [[0, 0, 0], [0, 0, 0]] }

/-- A one-region network holding a single TRIGGERED neuron. -/
def triggeredNet : Network :=
  { regions := [⟨"r", 1, true, 0, [1]⟩],
    recoveryRatio := 0.5,
    stateHistorySize := 2,
    conformation := [[none]],
    cachedState := [1],
    stateHistory := [[1], [1]] }

/-! ## Claim theorems (part 1: concrete evaluations) -/

/-- C1: in `Pong.check_ball_collisions`, both the right-wall branch and the
agent-collision branch begin with `self.network.reward()`, a call that omits
the `generator` parameter `Network.reward` requires; Python therefore raises
`TypeError` there, so neither the reward routine, nor the ball regeneration
and translator-timer reset (right wall), nor the success log and wall-bounce
resolution (agent paddle) are performed.  Evaluated on a ball of radius 5 in
a 100×100 frame touching the right wall (center `(95, 50)`), and on a ball
at `(50, 50)` colliding with the agent paddle only. -/
theorem C1_reward_dispatch_raises_typeError :
    check_ball_collisions ⟨95, 50, 5, 100, 100⟩ false false = ([], some .typeError) ∧
    check_ball_collisions ⟨50, 50, 5, 100, 100⟩ false true = ([], some .typeError) ∧
    specRightWallTrace ≠ [] := by
  refine ⟨by norm_num [check_ball_collisions], by norm_num [check_ball_collisions], by decide⟩

/-- C3: `Network.__init__` accepts a connectome whose *target* key `"ghost"`
names no region (the union of target keys computed on line 78 is discarded),
while it does raise `NetworkInitializationError` on a duplicated region name
and a plain `ValueError` (not `NetworkInitializationError`) on an unknown
*source* key. -/
theorem C3_unknown_target_key_accepted :
    networkInitCheck ["region1"] [("region1", ["ghost"])] = .ok () ∧
    networkInitCheck ["region1", "region1"] [] = .error .initError ∧
    networkInitCheck ["region1"] [("ghost", ["region1"])] = .error .valueError := by
  decide

/-- C8: `Network.get_motor_signal` on an accessed-regions list containing the
unknown name `"nope"` raises `TypeError`, not `NetworkCommunicationError`:
the handler builds `NetworkCommunicationError(msg)` without the
`faulty_regions` argument its constructor requires. -/
theorem C8_unknown_region_raises_typeError :
    get_motor_signal testNet ["region1", "nope"] = .error .typeError := by
  norm_num [get_motor_signal, resolveRegions, testNet, findRegion?, strEq_r1_nope,
    strEq_r2_nope, Except.map]

/-- C9: `fixed_average_transmission(0.5, rng_const=0.5)` applied to a `1×1`
block draws a matrix whose row mean is already within tolerance of `μ`, so
the while-loop body never runs and the functor raises `UnboundLocalError`
instead of returning the matrix; the spec's scenario S1
(`fixed_average(0.66, rng_const=0.5)(3, 2)` ⇒ exactly `0.66` everywhere)
does hold. -/
theorem C9_within_tolerance_draw_raises_unboundLocal :
    fixed_average_transmission (1/2) (1/1000000) (constGen (1/2)) 1 1 10 =
      .error .unboundLocalError ∧
    fixed_average_transmission (66/100) (1/1000000) (constGen (1/2)) 3 2 10 =
      .ok [[33/50, 33/50], [33/50, 33/50], [33/50, 33/50]] := by
  constructor <;>
    norm_num [fixed_average_transmission, fixedAvgLoop, drawMatrix, drawRow, constGen,
      RNG.next, rowMean, scaleClipRow, le_abs]

/-- C2, counterexample: `propagate_signal` on a signal pairing the valid key
`"region1"` (clamped to `[1, 1]`) with the unknown key `"zzz"` raises
`NetworkCommunicationError(["zzz"])` — but `region1`'s state has already been
overwritten, so the network state is *not* unchanged on that error. -/
theorem C2_counterexample_state_changed_on_error :
    (propagate_signal zeroNet (constGen 0.4) (some [("region1", [1, 1]), ("zzz", [0])])).err =
      some (.commError ["zzz"]) ∧
    ((propagate_signal zeroNet (constGen 0.4)
        (some [("region1", [1, 1]), ("zzz", [0])])).net.regions.map Region.state ≠
      zeroNet.regions.map Region.state) := by
  constructor <;>
    norm_num [propagate_signal, clampLoop, zeroNet, propagateCore,
      updateRegions, updateRegionState, stepNeuron, pFireAt, pFireRow, nanToOne, constGen,
      RNG.next, pushHistory, Region.mk.injEq, findRegion?, strEq_r2_r1, strEq_r1_zzz,
      strEq_r2_zzz]

/-- The number of neurons C4 claims consume a draw: neurons of non-clamped
regions whose state is not DEAD. -/
def countNonDead : List ℚ → ℕ
  | [] => 0
  | x :: xs => (if x = -1 then 0 else 1) + countNonDead xs

def nonClampedNonDeadCount (net : Network) (clamped : List String) : ℕ :=
  (net.regions.map fun r => if r.name ∈ clamped then 0 else countNonDead r.state).sum

/-- C4, counterexample: on a network holding a single TRIGGERED neuron,
`propagate_signal` consumes *no* uniform draw (a TRIGGERED neuron moves to
RECOVERING deterministically), although the neuron is neither clamped nor
DEAD — the claimed count is 1. -/
theorem C4_counterexample_triggered_consumes_no_draw :
    ¬ ((propagate_signal triggeredNet (constGen 0.4) none).rng.pos =
        (constGen 0.4).pos + nonClampedNonDeadCount triggeredNet []) := by
  norm_num [propagate_signal, propagateCore, updateRegions,
    updateRegionState, stepNeuron, triggeredNet, nonClampedNonDeadCount, countNonDead,
    constGen, RNG.next]

/-! ## Claim C7: motor decoding -/

/-- The value the claim ascribes to `get_motor_signal` for one accessed name:
the sum over the state-history snapshots of the region's per-snapshot mean,
divided by `H` (`0` for an unknown name, a case the claim excludes). -/
def specMotorValue (net : Network) (n : String) : ℚ :=
  match findRegion? n net.regions with
  | some r =>
    (net.stateHistory.map fun s => sliceMean s r.firstIndex r.size).sum /
      (net.stateHistorySize : ℚ)
  | none => 0

lemma getD_map {α β : Type} (f : α → β) (l : List α) (k : ℕ) (d : α) (d' : β)
    (hk : k < l.length) : (l.map f).getD k d' = f (l.getD k d) := by
  rw [List.getD_eq_getElem _ _ (by simpa using hk), List.getElem_map,
    List.getD_eq_getElem _ _ hk]

lemma list_eq_of_getD (as bs : List ℚ) (h : as.length = bs.length)
    (hp : ∀ k, k < as.length → as.getD k 0 = bs.getD k 0) : as = bs := by
  apply List.ext_getElem h
  intro i h1 h2
  have := hp i h1
  rwa [List.getD_eq_getElem _ _ h1, List.getD_eq_getElem _ _ h2] at this

lemma resolveRegions_ok (rs : List Region) :
    ∀ names : List String, (∀ n ∈ names, (findRegion? n rs).isSome) →
      resolveRegions rs names = .ok (names.map fun n =>
        (((findRegion? n rs).getD default).firstIndex,
          ((findRegion? n rs).getD default).size))
  | [], _ => rfl
  | n :: rest, h => by
    obtain ⟨r, hr⟩ := Option.isSome_iff_exists.mp (h n (List.mem_cons_self n rest))
    have ih := resolveRegions_ok rs rest fun m hm => h m (List.mem_cons_of_mem n hm)
    simp only [resolveRegions, hr, ih, Except.map, List.map_cons, Option.getD_some]

/-- One pass of the accumulation loop of `get_motor_signal`. -/
lemma motorStep_getD (ranges : List (ℕ × ℕ)) (s : List ℚ) (acc : List ℚ)
    (hlen : acc.length = ranges.length) (k : ℕ) (hk : k < ranges.length) :
    ((acc.zip ranges).map fun p => p.1 + sliceMean s p.2.1 p.2.2).getD k 0 =
      acc.getD k 0 + sliceMean s (ranges.getD k (0, 0)).1 (ranges.getD k (0, 0)).2 := by
  have hk' : k < acc.length := by omega
  have hz : k < (acc.zip ranges).length := by
    simp [List.length_zip, hlen]
    omega
  rw [List.getD_eq_getElem _ _ (by simpa using hz), List.getElem_map, List.getElem_zip,
    List.getD_eq_getElem _ _ hk', List.getD_eq_getElem _ _ hk]

/-- The full accumulation loop of `get_motor_signal`, summed over the
history. -/
lemma motorFold_getD (ranges : List (ℕ × ℕ)) :
    ∀ (hist : List (List ℚ)) (acc : List ℚ), acc.length = ranges.length →
      (hist.foldl (fun acc s => (acc.zip ranges).map fun p =>
          p.1 + sliceMean s p.2.1 p.2.2) acc).length = ranges.length ∧
      ∀ k, k < ranges.length →
        (hist.foldl (fun acc s => (acc.zip ranges).map fun p =>
            p.1 + sliceMean s p.2.1 p.2.2) acc).getD k 0 =
          acc.getD k 0 +
            (hist.map fun s =>
              sliceMean s (ranges.getD k (0, 0)).1 (ranges.getD k (0, 0)).2).sum
  | [], acc, hlen => by simpa using hlen
  | s :: hist, acc, hlen => by
    have hstep : ((acc.zip ranges).map fun p =>
        p.1 + sliceMean s p.2.1 p.2.2).length = ranges.length := by
      simp [List.length_zip, hlen]
    obtain ⟨ihlen, ihval⟩ := motorFold_getD ranges hist _ hstep
    refine ⟨by simpa using ihlen, fun k hk => ?_⟩
    rw [List.foldl_cons, ihval k hk, motorStep_getD ranges s acc hlen k hk,
      List.map_cons, List.sum_cons]
    ring

/-- C7: for every network and list of existing region names,
`get_motor_signal` returns one scalar per name in input order, each equal to
the sum over the state-history snapshots of that region's per-snapshot mean
divided by `state_history_size`; a region whose whole `H`-window is
identically `1.0` yields `1.0`, an identically-zero region `0.0`. -/
theorem C7_motor_signal_formula (net : Network) (names : List String)
    (h : ∀ n ∈ names, (findRegion? n net.regions).isSome) :
    get_motor_signal net names = .ok (names.map (specMotorValue net)) ∧
    (∀ n r, findRegion? n net.regions = some r →
      (∀ s ∈ net.stateHistory, (s.drop r.firstIndex).take r.size =
        List.replicate r.size 1) →
      0 < r.size → net.stateHistory.length = net.stateHistorySize →
      0 < net.stateHistorySize → specMotorValue net n = 1) ∧
    (∀ n r, findRegion? n net.regions = some r →
      (∀ s ∈ net.stateHistory, (s.drop r.firstIndex).take r.size =
        List.replicate r.size 0) →
      specMotorValue net n = 0) := by
  refine ⟨?_, ?_, ?_⟩
  · rw [get_motor_signal, resolveRegions_ok net.regions names h]
    dsimp only
    congr 1
    apply list_eq_of_getD
    · have := (motorFold_getD (names.map fun n =>
        (((findRegion? n net.regions).getD default).firstIndex,
          ((findRegion? n net.regions).getD default).size)) net.stateHistory
        (List.replicate names.length 0) (by simp)).1
      simp only [List.length_map] at this ⊢
      exact this
    · intro k hk
      obtain ⟨hflen, hfval⟩ := motorFold_getD (names.map fun n =>
        (((findRegion? n net.regions).getD default).firstIndex,
          ((findRegion? n net.regions).getD default).size)) net.stateHistory
        (List.replicate names.length 0) (by simp)
      have hk' : k < names.length := by
        simp only [List.length_map, List.length_map] at hk hflen
        omega
      have hkF : k < (net.stateHistory.foldl (fun acc s =>
          (acc.zip (names.map fun n =>
            (((findRegion? n net.regions).getD default).firstIndex,
              ((findRegion? n net.regions).getD default).size))).map fun p =>
            p.1 + sliceMean s p.2.1 p.2.2) (List.replicate names.length 0)).length := by
        rw [hflen]; simpa using hk'
      rw [getD_map _ _ k 0 0 hkF, getD_map _ _ k "" 0 hk',
        hfval k (by simpa using hk'), getD_map _ _ k "" (0, 0) hk']
      obtain ⟨r, hr⟩ := Option.isSome_iff_exists.mp
        (h (names.getD k "") (by
          have := List.getElem_mem (by simpa using hk' : k < names.length)
          rwa [← List.getD_eq_getElem names "" (by simpa using hk')] at this))
      rw [List.getD_eq_getElem (List.replicate names.length (0 : ℚ)) 0
        (by simpa using hk')]
      simp only [List.getElem_replicate, hr, Option.getD_some, specMotorValue, zero_add]
  · intro n r hr hall hsz hhist hH
    simp only [specMotorValue, hr]
    have hone : ∀ s ∈ net.stateHistory, sliceMean s r.firstIndex r.size = 1 := by
      intro s hs
      rw [sliceMean, hall s hs, List.sum_replicate, nsmul_eq_mul, mul_one]
      exact div_self (by exact_mod_cast hsz.ne')
    rw [List.map_congr_left hone, List.map_const', List.sum_replicate, nsmul_eq_mul,
      mul_one, hhist]
    exact div_self (by exact_mod_cast hH.ne')
  · intro n r hr hall
    simp only [specMotorValue, hr]
    have hzero : ∀ s ∈ net.stateHistory, sliceMean s r.firstIndex r.size = 0 := by
      intro s hs
      rw [sliceMean, hall s hs]
      simp
    rw [List.map_congr_left hzero]
    simp

/-- C7 witness: the theorem applied to the repository's test network and the
accessed list `["region1", "region2"]`, with the resulting motor signal
evaluated (it matches `test_get_motor_signal`'s expected `[0.375, 11/28]`
after the test's first propagation; here the history is the one of
`testNet`). -/
theorem C7_motor_signal_witness :
    (∀ n ∈ ["region1", "region2"], (findRegion? n testNet.regions).isSome) ∧
    get_motor_signal testNet ["region1", "region2"] =
      .ok (["region1", "region2"].map (specMotorValue testNet)) := by
  refine ⟨?_, ?_⟩
  · intro n hn
    rcases List.mem_cons.mp hn with h | h
    · subst h; norm_num [findRegion?, testNet]
    · rcases List.mem_cons.mp h with h | h
      · subst h; norm_num [findRegion?, testNet, strEq_r1_r2]
      · cases h
  · exact (C7_motor_signal_formula testNet ["region1", "region2"] (by
      intro n hn
      rcases List.mem_cons.mp hn with h | h
      · subst h; norm_num [findRegion?, testNet]
      · rcases List.mem_cons.mp h with h | h
        · subst h; norm_num [findRegion?, testNet, strEq_r1_r2]
        · cases h)).1

/-! ## Claims C4 and C5: draw accounting and the transition rule -/

/-- `TRIGGERED` state value. -/
def TRIGGERED : ℚ := 1

/-- `RESTING` state value. -/
def RESTING : ℚ := 0

/-- `DEAD` state value. -/
def DEAD : ℚ := -1

/-- Number of `generator.uniform()` calls the per-neuron branch makes,
branch by branch. -/
def drawsOf (ratio x : ℚ) : ℕ :=
  if x = 1 then 0 else if x = ratio then 1 else if x = 0 then 1 else 0

/-- Number of neurons in RESTING or RECOVERING state — the draw-consuming
ones, per the amended C4. -/
def restingOrRecoveringCount (ratio : ℚ) : List ℚ → ℕ
  | [] => 0
  | x :: xs => (if x = ratio ∨ x = 0 then 1 else 0) + restingOrRecoveringCount ratio xs

/-- Per-region draw count: clamped regions consume nothing. -/
def regionDrawCount (ratio : ℚ) (clamped : List String) (r : Region) : ℕ :=
  if r.name ∈ clamped then 0 else restingOrRecoveringCount ratio r.state

/-- The transition rule exactly as claim C5 states it: TRIGGERED moves to
RECOVERING deterministically; RESTING fires to TRIGGERED iff `u ≤ p`;
RECOVERING stays RECOVERING iff `u ≤ p` and otherwise rests; every other
state (in particular DEAD) is unchanged. -/
def claimTransition (recovering p u x : ℚ) : ℚ :=
  if x = TRIGGERED then recovering
  else if x = recovering then (if u ≤ p then recovering else RESTING)
  else if x = RESTING then (if u ≤ p then TRIGGERED else RESTING)
  else x

/-- The four legal neuron states. -/
def LegalState (ratio x : ℚ) : Prop :=
  x = 1 ∨ x = ratio ∨ x = 0 ∨ x = -1

lemma stepNeuron_rng (ratio p x : ℚ) (g : RNG) :
    (stepNeuron ratio p x g).2 = ⟨g.seq, g.pos + drawsOf ratio x⟩ := by
  cases g
  rw [stepNeuron, drawsOf]
  split_ifs <;> simp [RNG.next]

lemma stepNeuron_isSome (ratio p x : ℚ) (g : RNG) (h : LegalState ratio x) :
    (stepNeuron ratio p x g).1.isSome := by
  rw [stepNeuron]
  split_ifs <;> first
    | rfl
    | (rcases h with h | h | h | h <;> simp_all)

/-- The per-neuron branch produces exactly the claim's transition rule on
legal states, reading `u` as the next unread draw. -/
lemma stepNeuron_val (ratio p x : ℚ) (g : RNG) (h : LegalState ratio x) :
    (stepNeuron ratio p x g).1 = some (claimTransition ratio p (g.seq g.pos) x) := by
  rw [stepNeuron, claimTransition, TRIGGERED, RESTING, RNG.next]
  by_cases h1 : x = 1
  · simp [h1]
  · rw [if_neg h1, if_neg h1]
    by_cases h2 : x = ratio
    · simp [h2]
    · rw [if_neg h2, if_neg h2]
      by_cases h3 : x = 0
      · simp [h3]
      · rw [if_neg h3, if_neg h3]
        rcases h with h | h | h | h
        · exact absurd h h1
        · exact absurd h h2
        · exact absurd h h3
        · simp [h]

lemma sum_drawsOf_eq (ratio : ℚ) (hratio : ratio ≠ 1) :
    ∀ xs : List ℚ, (xs.map (drawsOf ratio)).sum = restingOrRecoveringCount ratio xs
  | [] => rfl
  | x :: xs => by
    rw [List.map_cons, List.sum_cons, restingOrRecoveringCount,
      sum_drawsOf_eq ratio hratio xs, drawsOf]
    congr 1
    by_cases h1 : x = 1
    · subst h1
      rw [if_pos rfl, if_neg]
      push_neg
      exact ⟨fun h => absurd h.symm hratio, one_ne_zero⟩
    · rw [if_neg h1]
      by_cases h2 : x = ratio
      · simp [h2]
      · by_cases h3 : x = 0 <;> simp [h2, h3]

lemma updateRegionState_rng (ratio : ℚ) (pv : ℕ → ℚ) :
    ∀ (xs : List ℚ) (idx : ℕ) (g : RNG),
      (updateRegionState ratio pv idx xs g).2 =
        ⟨g.seq, g.pos + (xs.map (drawsOf ratio)).sum⟩
  | [], _, g => by cases g; simp [updateRegionState]
  | x :: xs, idx, g => by
    rw [updateRegionState]
    dsimp only
    rw [updateRegionState_rng ratio pv xs (idx + 1) _, stepNeuron_rng]
    simp [List.sum_cons, Nat.add_assoc]

lemma updateRegionState_length (ratio : ℚ) (pv : ℕ → ℚ) :
    ∀ (xs : List ℚ) (idx : ℕ) (g : RNG), (∀ x ∈ xs, LegalState ratio x) →
      (updateRegionState ratio pv idx xs g).1.length = xs.length
  | [], _, _, _ => rfl
  | x :: xs, idx, g, h => by
    rw [updateRegionState]
    dsimp only
    obtain ⟨y, hy⟩ := Option.isSome_iff_exists.mp
      (stepNeuron_isSome ratio (pv idx) x g (h x (List.mem_cons_self x xs)))
    rw [hy]
    simp only [Option.toList_some, List.cons_append, List.nil_append, List.length_cons]
    rw [updateRegionState_length ratio pv xs (idx + 1) _
      fun y hy => h y (List.mem_cons_of_mem x hy)]

lemma updateRegionState_getD (ratio : ℚ) (pv : ℕ → ℚ) :
    ∀ (xs : List ℚ) (idx : ℕ) (g : RNG) (j : ℕ), j < xs.length →
      (∀ x ∈ xs, LegalState ratio x) →
      (updateRegionState ratio pv idx xs g).1.getD j 9 =
        claimTransition ratio (pv (idx + j))
          (g.seq (g.pos + ((xs.take j).map (drawsOf ratio)).sum)) (xs.getD j 9)
  | [], _, _, j, hj, _ => absurd hj (by simp)
  | x :: xs, idx, g, 0, _, h => by
    rw [updateRegionState]
    dsimp only
    rw [stepNeuron_val ratio (pv idx) x g (h x (List.mem_cons_self x xs))]
    simp only [Option.toList_some, List.cons_append, List.nil_append,
      List.getD_cons_zero, List.take_zero, List.map_nil, List.sum_nil, Nat.add_zero]
  | x :: xs, idx, g, j + 1, hj, h => by
    rw [updateRegionState]
    dsimp only
    obtain ⟨y, hy⟩ := Option.isSome_iff_exists.mp
      (stepNeuron_isSome ratio (pv idx) x g (h x (List.mem_cons_self x xs)))
    rw [hy, stepNeuron_rng ratio (pv idx) x g]
    simp only [Option.toList_some, List.cons_append, List.nil_append, List.getD_cons_succ]
    rw [updateRegionState_getD ratio pv xs (idx + 1) _ j (by simpa using hj)
      fun y hy => h y (List.mem_cons_of_mem x hy)]
    simp only [List.take_succ_cons, List.map_cons, List.sum_cons, List.getD_cons_succ]
    rw [show idx + 1 + j = idx + (j + 1) by omega]
    rw [show g.pos + drawsOf ratio x +
        ((List.take j xs).map (drawsOf ratio)).sum =
        g.pos + (drawsOf ratio x + ((List.take j xs).map (drawsOf ratio)).sum) by omega]

lemma updateRegions_spec (ratio : ℚ) (pv : ℕ → ℚ) (clamped : List String) :
    ∀ (rs : List Region) (g : RNG),
      (∀ r ∈ rs, r.name ∉ clamped →
        r.state.length = r.size ∧ ∀ x ∈ r.state, LegalState ratio x) →
      (updateRegions ratio pv clamped rs g).2.2 = none ∧
      (updateRegions ratio pv clamped rs g).2.1 =
        ⟨g.seq, g.pos + (rs.map fun r =>
          if r.name ∈ clamped then 0 else (r.state.map (drawsOf ratio)).sum).sum⟩ ∧
      (updateRegions ratio pv clamped rs g).1.length = rs.length ∧
      ∀ k, k < rs.length →
        (updateRegions ratio pv clamped rs g).1.getD k default =
          (if (rs.getD k default).name ∈ clamped then rs.getD k default
           else { rs.getD k default with state :=
             (updateRegionState ratio pv (rs.getD k default).firstIndex
               (rs.getD k default).state
               ⟨g.seq, g.pos + ((rs.take k).map fun r =>
                 if r.name ∈ clamped then 0
                 else (r.state.map (drawsOf ratio)).sum).sum⟩).1 })
  | [], g, _ => by
    refine ⟨rfl, ?_, rfl, fun k hk => absurd hk (by simp)⟩
    cases g
    simp [updateRegions]
  | r :: rest, g, hwf => by
    obtain ⟨seq, pos⟩ := g
    by_cases hc : r.name ∈ clamped
    · obtain ⟨ih1, ih2, ih3, ih4⟩ := updateRegions_spec ratio pv clamped rest ⟨seq, pos⟩
        (fun r' hr' => hwf r' (List.mem_cons_of_mem r hr'))
      simp only [updateRegions, if_pos hc]
      refine ⟨ih1, ?_, by simp [ih3], ?_⟩
      · rw [ih2]
        simp [hc]
      · intro k hk
        cases k with
        | zero => simp [hc]
        | succ k =>
          simp only [List.getD_cons_succ]
          rw [ih4 k (by simpa using hk)]
          simp [List.take_succ_cons, hc]
    · have hr0 := hwf r (List.mem_cons_self r rest) hc
      have hlen : (updateRegionState ratio pv r.firstIndex r.state
          (⟨seq, pos⟩ : RNG)).1.length = r.size := by
        rw [updateRegionState_length ratio pv r.state r.firstIndex _ hr0.2, hr0.1]
      have hrng := updateRegionState_rng ratio pv r.state r.firstIndex
        (⟨seq, pos⟩ : RNG)
      obtain ⟨ih1, ih2, ih3, ih4⟩ := updateRegions_spec ratio pv clamped rest
        ⟨seq, pos + (r.state.map (drawsOf ratio)).sum⟩
        (fun r' hr' => hwf r' (List.mem_cons_of_mem r hr'))
      simp only [updateRegions, if_neg hc, hrng, if_pos hlen]
      refine ⟨ih1, ?_, by simp [ih3], ?_⟩
      · rw [ih2]
        simp [hc, Nat.add_assoc]
      · intro k hk
        cases k with
        | zero => simp [hc]
        | succ k =>
          simp only [List.getD_cons_succ]
          rw [ih4 k (by simpa using hk)]
          simp [List.take_succ_cons, hc, Nat.add_assoc]

/-! ## The clamping phase: specification lemmas -/

/-- The cumulative effect of the clamping loop on one region: each signal
entry whose key matches the region's name overwrites its state. -/
def applySig (sig : List (String × List ℚ)) (r : Region) : Region :=
  sig.foldl (fun r p => if r.name = p.1 then { r with state := p.2 } else r) r

/-- The signal keys naming no region, in signal order — the
`faulty_regions` list the clamping loop accumulates. -/
def unknownNames (rs : List Region) (sig : List (String × List ℚ)) : List String :=
  (sig.map Prod.fst).filter fun n => (findRegion? n rs).isNone

lemma applySig_nil (r : Region) : applySig [] r = r := rfl

lemma applySig_cons (p : String × List ℚ) (sig : List (String × List ℚ)) (r : Region) :
    applySig (p :: sig) r =
      applySig sig (if r.name = p.1 then { r with state := p.2 } else r) := rfl

/-- `applySig` never changes a region's name. -/
lemma applySig_name (sig : List (String × List ℚ)) :
    ∀ r : Region, (applySig sig r).name = r.name := by
  induction sig with
  | nil => intro r; rfl
  | cons p sig ih =>
    intro r
    rw [applySig_cons]
    by_cases h : r.name = p.1
    · rw [if_pos h, ih]
    · rw [if_neg h, ih]

/-- `applySig` never changes a region's size, kind or first index. -/
lemma applySig_frame (sig : List (String × List ℚ)) :
    ∀ r : Region, (applySig sig r).size = r.size ∧
      (applySig sig r).internal = r.internal ∧
      (applySig sig r).firstIndex = r.firstIndex := by
  induction sig with
  | nil => intro r; exact ⟨rfl, rfl, rfl⟩
  | cons p sig ih =>
    intro r
    rw [applySig_cons]
    by_cases h : r.name = p.1
    · rw [if_pos h]; exact ih _
    · rw [if_neg h]; exact ih _

/-- A region named by no signal key is unchanged by the clamping phase. -/
lemma applySig_not_named (sig : List (String × List ℚ)) :
    ∀ r : Region, (∀ p ∈ sig, r.name ≠ p.1) → applySig sig r = r := by
  induction sig with
  | nil => intro r _; rfl
  | cons p sig ih =>
    intro r h
    rw [applySig_cons, if_neg (h p (List.mem_cons_self p sig))]
    exact ih r fun q hq => h q (List.mem_cons_of_mem p hq)

lemma findRegion?_eq_none (n : String) :
    ∀ rs : List Region, findRegion? n rs = none → ∀ r ∈ rs, r.name ≠ n
  | [], _, r, hr => absurd hr (by simp)
  | r0 :: rest, h, r, hr => by
    rw [findRegion?] at h
    by_cases h0 : r0.name = n
    · rw [if_pos h0] at h; cases h
    · rw [if_neg h0] at h
      rcases List.mem_cons.mp hr with h1 | h1
      · subst h1; exact h0
      · exact findRegion?_eq_none n rest h r h1

lemma findRegion?_mem (n : String) :
    ∀ (rs : List Region) (r : Region), findRegion? n rs = some r →
      r ∈ rs ∧ r.name = n
  | [], r, h => by cases h
  | r0 :: rest, r, h => by
    rw [findRegion?] at h
    by_cases h0 : r0.name = n
    · rw [if_pos h0] at h
      cases h
      exact ⟨List.mem_cons_self r0 rest, h0⟩
    · rw [if_neg h0] at h
      obtain ⟨h1, h2⟩ := findRegion?_mem n rest r h
      exact ⟨List.mem_cons_of_mem r0 h1, h2⟩

/-- `findRegion?` commutes with any name-preserving map of the region list. -/
lemma findRegion?_map (n : String) (f : Region → Region)
    (hf : ∀ r, (f r).name = r.name) :
    ∀ rs : List Region, findRegion? n (rs.map f) = (findRegion? n rs).map f
  | [] => rfl
  | r :: rest => by
    rw [List.map_cons, findRegion?, findRegion?, hf r]
    by_cases h : r.name = n
    · rw [if_pos h, if_pos h]
      rfl
    · rw [if_neg h, if_neg h, findRegion?_map n f hf rest]

/-- The clamping loop, characterized: when every entry whose key names a
region carries a correctly sized vector, the loop terminates without raising,
returns the regions with all matching clamps applied, and appends exactly the
unknown keys (in order) to the accumulated faulty list. -/
lemma clampLoop_spec :
    ∀ (sig : List (String × List ℚ)) (rs : List Region) (acc : List String),
      (∀ p ∈ sig, ∀ r, findRegion? p.1 rs = some r → p.2.length = r.size) →
      clampLoop rs acc sig =
        (rs.map (applySig sig), acc ++ unknownNames rs sig, none)
  | [], rs, acc, _ => by
    rw [clampLoop]
    have hm : rs.map (applySig []) = rs := by
      rw [List.map_congr_left fun r _ => applySig_nil r]
      exact List.map_id rs
    rw [hm]
    simp [unknownNames]
  | (n, v) :: sig, rs, acc, hsize => by
    rw [clampLoop]
    cases hfind : findRegion? n rs with
    | some r =>
      dsimp only
      have hv : v.length = r.size :=
        hsize (n, v) (List.mem_cons_self _ _) r hfind
      rw [if_pos hv]
      have hupd : ∀ r' : Region,
          ((fun r' => if r'.name = n then { r' with state := v } else r') r').name =
            r'.name := by
        intro r'
        by_cases h : r'.name = n <;> simp [h]
      have hrec := clampLoop_spec sig
        (rs.map fun r' => if r'.name = n then { r' with state := v } else r') acc
        (by
          intro p hp r' hr'
          rw [findRegion?_map p.1 _ hupd rs] at hr'
          cases hfind' : findRegion? p.1 rs with
          | none => rw [hfind'] at hr'; cases hr'
          | some r0 =>
            rw [hfind'] at hr'
            have heq : (fun r' => if r'.name = n then { r' with state := v } else r') r0 = r' := by
              cases hr'
              rfl
            have hsz := hsize p (List.mem_cons_of_mem _ hp) r0 hfind'
            rw [← heq]
            by_cases h : r0.name = n <;> simp [h, hsz])
      rw [hrec]
      have hm : (rs.map fun r' => if r'.name = n then { r' with state := v } else r').map
          (applySig sig) = rs.map (applySig ((n, v) :: sig)) := by
        rw [List.map_map]
        rfl
      have hu2 : unknownNames
          (rs.map fun r' => if r'.name = n then { r' with state := v } else r') sig =
          unknownNames rs sig := by
        rw [unknownNames, unknownNames]
        apply List.filter_congr
        intro m _
        rw [findRegion?_map m _ hupd rs]
        cases findRegion? m rs <;> rfl
      have hu : unknownNames rs ((n, v) :: sig) = unknownNames rs sig := by
        rw [unknownNames, List.map_cons, List.filter_cons, hfind]
        simp [unknownNames]
      rw [hm, hu2, hu]
    | none =>
      dsimp only
      have hrec := clampLoop_spec sig rs (acc ++ [n])
        (fun p hp => hsize p (List.mem_cons_of_mem _ hp))
      rw [hrec]
      have hmap : rs.map (applySig ((n, v) :: sig)) = rs.map (applySig sig) := by
        apply List.map_congr_left
        intro r hr
        rw [applySig_cons, if_neg (findRegion?_eq_none n rs hfind r hr)]
      have hu : unknownNames rs ((n, v) :: sig) = n :: unknownNames rs sig := by
        rw [unknownNames, List.map_cons, List.filter_cons, hfind]
        simp [unknownNames]
      rw [hmap, hu, List.append_assoc]
      rfl

/-- The signal's key list (`dict` keys in insertion order; `[]` when the
signal is `None`). -/
def signalKeys : Option (List (String × List ℚ)) → List String
  | none => []
  | some sig => sig.map Prod.fst

lemma propagateCore_spec (net : Network) (g : RNG) (clamped : List String)
    (hwf : ∀ r ∈ net.regions, r.name ∉ clamped →
      r.state.length = r.size ∧ ∀ x ∈ r.state, LegalState net.recoveryRatio x) :
    (propagateCore net g clamped).err = none ∧
    (propagateCore net g clamped).rng =
      ⟨g.seq, g.pos + (net.regions.map fun r =>
        if r.name ∈ clamped then 0
        else (r.state.map (drawsOf net.recoveryRatio)).sum).sum⟩ ∧
    (propagateCore net g clamped).net.regions.length = net.regions.length ∧
    ∀ k, k < net.regions.length →
      (propagateCore net g clamped).net.regions.getD k default =
        (if (net.regions.getD k default).name ∈ clamped then net.regions.getD k default
         else { net.regions.getD k default with state :=
           (updateRegionState net.recoveryRatio
             (pFireAt net.conformation net.cachedState)
             (net.regions.getD k default).firstIndex
             (net.regions.getD k default).state
             ⟨g.seq, g.pos + ((net.regions.take k).map fun r =>
               if r.name ∈ clamped then 0
               else (r.state.map (drawsOf net.recoveryRatio)).sum).sum⟩).1 }) := by
  obtain ⟨h1, h2, h3, h4⟩ := updateRegions_spec net.recoveryRatio
    (pFireAt net.conformation net.cachedState) clamped net.regions g hwf
  rw [propagateCore]
  dsimp only
  rw [h1]
  exact ⟨rfl, h2, h3, h4⟩

/-- C2 (amended): a signal whose known-named entries are correctly sized and
which contains at least one unknown key makes `propagate_signal` raise
`NetworkCommunicationError` listing the unknown names in order; the error is
raised after the clamping loop, so the returned object differs from the
input network only in that every region picked up the clamps whose key
matches its name (`applySig`), the state history, cached state and RNG being
untouched; a region named by no signal key is unchanged. -/
theorem C2_amended_unknown_names_reported (net : Network) (g : RNG)
    (sig : List (String × List ℚ))
    (hsize : ∀ p ∈ sig, ∀ r, findRegion? p.1 net.regions = some r →
      p.2.length = r.size)
    (hunk : unknownNames net.regions sig ≠ []) :
    propagate_signal net g (some sig) =
      ⟨{ net with regions := net.regions.map (applySig sig) }, g,
        some (.commError (unknownNames net.regions sig))⟩ ∧
    ∀ r ∈ net.regions, (∀ p ∈ sig, r.name ≠ p.1) → applySig sig r = r := by
  refine ⟨?_, fun r _ h => applySig_not_named sig r h⟩
  rw [propagate_signal, clampLoop_spec sig net.regions [] hsize]
  dsimp only
  rw [List.nil_append, if_neg hunk]

/-- C2 amended, witness: the two-region all-zero network with the signal
`{"region1": [1,1], "zzz": [0]}`. -/
theorem C2_amended_witness :
    (∀ p ∈ [("region1", [(1 : ℚ), 1]), ("zzz", [0])], ∀ r,
      findRegion? p.1 zeroNet.regions = some r → p.2.length = r.size) ∧
    unknownNames zeroNet.regions [("region1", [1, 1]), ("zzz", [0])] ≠ [] ∧
    propagate_signal zeroNet (constGen 0.4)
        (some [("region1", [1, 1]), ("zzz", [0])]) =
      ⟨{ zeroNet with regions :=
          zeroNet.regions.map (applySig [("region1", [1, 1]), ("zzz", [0])]) },
        constGen 0.4,
        some (.commError (unknownNames zeroNet.regions
          [("region1", [1, 1]), ("zzz", [0])]))⟩ := by
  have hsize : ∀ p ∈ [("region1", [(1 : ℚ), 1]), ("zzz", [0])], ∀ r,
      findRegion? p.1 zeroNet.regions = some r → p.2.length = r.size := by
    intro p hp r hr
    rcases List.mem_cons.mp hp with h | h
    · subst h
      rw [show findRegion? "region1" zeroNet.regions =
          some ⟨"region1", 2, false, 0, [0, 0]⟩ by norm_num [findRegion?, zeroNet]] at hr
      cases hr
      rfl
    · rcases List.mem_cons.mp h with h | h
      · subst h
        rw [show findRegion? "zzz" zeroNet.regions = none by
          norm_num [findRegion?, zeroNet, strEq_r1_zzz, strEq_r2_zzz]] at hr
        cases hr
      · cases h
  have hunk : unknownNames zeroNet.regions [("region1", [(1 : ℚ), 1]), ("zzz", [0])] ≠ [] := by
    norm_num [unknownNames, zeroNet, findRegion?, strEq_r1_zzz, strEq_r2_zzz,
      List.filter_cons]
  exact ⟨hsize, hunk,
    (C2_amended_unknown_names_reported zeroNet (constGen 0.4)
      [("region1", [1, 1]), ("zzz", [0])] hsize hunk).1⟩

lemma drawCount_eq (ratio : ℚ) (hratio : ratio ≠ 1) (clamped : List String)
    (r : Region) :
    (if r.name ∈ clamped then 0 else (r.state.map (drawsOf ratio)).sum) =
      regionDrawCount ratio clamped r := by
  rw [regionDrawCount]
  by_cases h : r.name ∈ clamped
  · rw [if_pos h, if_pos h]
  · rw [if_neg h, if_neg h, sum_drawsOf_eq ratio hratio]

lemma applySig_keys_invariant (ratio : ℚ) (sig : List (String × List ℚ))
    (r : Region) :
    (if (applySig sig r).name ∈ sig.map Prod.fst then 0
      else ((applySig sig r).state.map (drawsOf ratio)).sum) =
    (if r.name ∈ sig.map Prod.fst then 0
      else (r.state.map (drawsOf ratio)).sum) := by
  rw [applySig_name]
  by_cases h : r.name ∈ sig.map Prod.fst
  · rw [if_pos h, if_pos h]
  · rw [if_neg h, if_neg h,
      applySig_not_named sig r fun p hp heq => h (List.mem_map.mpr ⟨p, hp, heq.symm⟩)]

lemma applySig_of_not_mem_keys (sig : List (String × List ℚ)) (r : Region)
    (h : r.name ∉ sig.map Prod.fst) : applySig sig r = r :=
  applySig_not_named sig r fun p hp heq => h (List.mem_map.mpr ⟨p, hp, heq.symm⟩)

/-- Dispatch of `propagate_signal` for a fully valid signal: the clamping
loop commits all clamps and the propagation phase runs with the signal keys
as the clamped names. -/
lemma propagate_valid_some (net : Network) (g : RNG) (sig : List (String × List ℚ))
    (hsize : ∀ p ∈ sig, ∀ r, findRegion? p.1 net.regions = some r →
      p.2.length = r.size)
    (hknown : unknownNames net.regions sig = []) :
    propagate_signal net g (some sig) =
      propagateCore { net with regions := net.regions.map (applySig sig) } g
        (sig.map Prod.fst) := by
  rw [propagate_signal, clampLoop_spec sig net.regions [] hsize]
  dsimp only
  rw [List.nil_append, hknown, if_pos rfl]

/-- The full behavior of `propagate_signal` on a well-formed network and a
valid (or absent) signal: no error, the generator advanced by exactly the
total draw count, and each non-clamped region rewritten by the inner loop
started at the draw offset accumulated over the earlier regions. -/
lemma propagate_spec (net : Network) (g : RNG)
    (signal : Option (List (String × List ℚ)))
    (hsize : ∀ sig, signal = some sig → ∀ p ∈ sig, ∀ r,
      findRegion? p.1 net.regions = some r → p.2.length = r.size)
    (hknown : ∀ sig, signal = some sig → unknownNames net.regions sig = [])
    (hwf : ∀ r ∈ net.regions, r.name ∉ signalKeys signal →
      r.state.length = r.size ∧ ∀ x ∈ r.state, LegalState net.recoveryRatio x) :
    (propagate_signal net g signal).err = none ∧
    (propagate_signal net g signal).rng =
      ⟨g.seq, g.pos + (net.regions.map fun r =>
        if r.name ∈ signalKeys signal then 0
        else (r.state.map (drawsOf net.recoveryRatio)).sum).sum⟩ ∧
    (propagate_signal net g signal).net.regions.length = net.regions.length ∧
    ∀ k, k < net.regions.length →
      (net.regions.getD k default).name ∉ signalKeys signal →
      (propagate_signal net g signal).net.regions.getD k default =
        { net.regions.getD k default with state :=
          (updateRegionState net.recoveryRatio
            (pFireAt net.conformation net.cachedState)
            (net.regions.getD k default).firstIndex
            (net.regions.getD k default).state
            ⟨g.seq, g.pos + ((net.regions.take k).map fun r =>
              if r.name ∈ signalKeys signal then 0
              else (r.state.map (drawsOf net.recoveryRatio)).sum).sum⟩).1 } := by
  cases signal with
  | none =>
    simp only [signalKeys] at hwf ⊢
    have h := propagateCore_spec net g [] (by
      intro r hr _
      exact hwf r hr (by simp))
    rw [propagate_signal]
    refine ⟨h.1, h.2.1, h.2.2.1, fun k hk hnc => ?_⟩
    rw [h.2.2.2 k hk, if_neg hnc]
  | some sig =>
    simp only [signalKeys] at hwf ⊢
    rw [propagate_valid_some net g sig (hsize sig rfl) (hknown sig rfl)]
    have hwf1 : ∀ r ∈ (net.regions.map (applySig sig)),
        r.name ∉ sig.map Prod.fst →
        r.state.length = r.size ∧
          ∀ x ∈ r.state, LegalState net.recoveryRatio x := by
      intro r' hr' hname
      obtain ⟨r, hr, hre⟩ := List.mem_map.mp hr'
      subst hre
      rw [applySig_name] at hname
      rw [applySig_of_not_mem_keys sig r hname]
      exact hwf r hr hname
    have h := propagateCore_spec { net with regions := net.regions.map (applySig sig) }
      g (sig.map Prod.fst) hwf1
    have hsum : ((net.regions.map (applySig sig)).map fun r =>
        if r.name ∈ sig.map Prod.fst then 0
        else (r.state.map (drawsOf net.recoveryRatio)).sum).sum =
        (net.regions.map fun r =>
          if r.name ∈ sig.map Prod.fst then 0
          else (r.state.map (drawsOf net.recoveryRatio)).sum).sum := by
      rw [List.map_map]
      congr 1
      apply List.map_congr_left
      intro r _
      exact applySig_keys_invariant net.recoveryRatio sig r
    refine ⟨h.1, ?_, ?_, fun k hk hnc => ?_⟩
    · rw [h.2.1]
      dsimp only
      rw [hsum]
    · rw [h.2.2.1]
      simp
    · have hk1 : k < (net.regions.map (applySig sig)).length := by simpa using hk
      have hgetD : (net.regions.map (applySig sig)).getD k default =
          applySig sig (net.regions.getD k default) :=
        getD_map (applySig sig) net.regions k default default hk
      have hid : applySig sig (net.regions.getD k default) =
          net.regions.getD k default :=
        applySig_of_not_mem_keys sig _ hnc
      have hpre : (((net.regions.map (applySig sig)).take k).map fun r =>
          if r.name ∈ sig.map Prod.fst then 0
          else (r.state.map (drawsOf net.recoveryRatio)).sum).sum =
          ((net.regions.take k).map fun r =>
            if r.name ∈ sig.map Prod.fst then 0
            else (r.state.map (drawsOf net.recoveryRatio)).sum).sum := by
        rw [← List.map_take, List.map_map]
        congr 1
        apply List.map_congr_left
        intro r _
        exact applySig_keys_invariant net.recoveryRatio sig r
      have h4 := h.2.2.2 k (by simpa using hk)
      rw [hgetD, hid] at h4
      rw [h4, if_neg hnc]
      dsimp only
      rw [hpre]

/-- C4 (amended): `propagate_signal` (without a signal or with a fully valid
one) raises nothing, and the generator cursor advances by exactly one draw
per neuron of a non-clamped region whose state is RESTING or RECOVERING
(clamped, TRIGGERED and DEAD neurons consume none); the draws are consumed in
the fixed order — regions in assembly order, neurons in ascending index
order — so each non-clamped region is rewritten by the inner loop started at
the cursor offset accumulated over all earlier regions (the inner loop
itself walks the region's neurons in ascending index order, drawing once per
RESTING/RECOVERING neuron). -/
theorem C4_amended_draw_count_and_order (net : Network) (g : RNG)
    (signal : Option (List (String × List ℚ)))
    (hsize : ∀ sig, signal = some sig → ∀ p ∈ sig, ∀ r,
      findRegion? p.1 net.regions = some r → p.2.length = r.size)
    (hknown : ∀ sig, signal = some sig → unknownNames net.regions sig = [])
    (hwf : ∀ r ∈ net.regions, r.name ∉ signalKeys signal →
      r.state.length = r.size ∧ ∀ x ∈ r.state, LegalState net.recoveryRatio x)
    (hratio : net.recoveryRatio ≠ 1) :
    (propagate_signal net g signal).err = none ∧
    (propagate_signal net g signal).rng =
      ⟨g.seq, g.pos + (net.regions.map
        (regionDrawCount net.recoveryRatio (signalKeys signal))).sum⟩ ∧
    ∀ k, k < net.regions.length →
      (net.regions.getD k default).name ∉ signalKeys signal →
      ((propagate_signal net g signal).net.regions.getD k default).state =
        (updateRegionState net.recoveryRatio
          (pFireAt net.conformation net.cachedState)
          (net.regions.getD k default).firstIndex
          (net.regions.getD k default).state
          ⟨g.seq, g.pos + ((net.regions.take k).map
            (regionDrawCount net.recoveryRatio (signalKeys signal))).sum⟩).1 := by
  obtain ⟨h1, h2, _, h4⟩ := propagate_spec net g signal hsize hknown hwf
  have hconv : ∀ rs : List Region, (rs.map fun r =>
      if r.name ∈ signalKeys signal then 0
      else (r.state.map (drawsOf net.recoveryRatio)).sum).sum =
      (rs.map (regionDrawCount net.recoveryRatio (signalKeys signal))).sum := by
    intro rs
    congr 1
    apply List.map_congr_left
    intro r _
    exact drawCount_eq net.recoveryRatio hratio (signalKeys signal) r
  refine ⟨h1, ?_, fun k hk hnc => ?_⟩
  · rw [h2, hconv]
  · rw [h4 k hk hnc]
    dsimp only
    rw [hconv]

/-- C4 amended, witness: the nine-neuron test network, no sensory signal. -/
theorem C4_amended_witness :
    testNet.recoveryRatio ≠ 1 ∧
    (∀ r ∈ testNet.regions, r.name ∉ signalKeys none →
      r.state.length = r.size ∧ ∀ x ∈ r.state, LegalState testNet.recoveryRatio x) ∧
    (propagate_signal testNet (constGen 0.4) none).err = none ∧
    (propagate_signal testNet (constGen 0.4) none).rng =
      ⟨(constGen 0.4).seq, (constGen 0.4).pos + (testNet.regions.map
        (regionDrawCount testNet.recoveryRatio (signalKeys none))).sum⟩ := by
  have hratio : testNet.recoveryRatio ≠ 1 := by norm_num [testNet]
  have hwf : ∀ r ∈ testNet.regions, r.name ∉ signalKeys none →
      r.state.length = r.size ∧ ∀ x ∈ r.state, LegalState testNet.recoveryRatio x := by
    intro r hr _
    rcases List.mem_cons.mp hr with h | h
    · subst h
      refine ⟨rfl, fun x hx => ?_⟩
      rcases List.mem_cons.mp hx with h | h
      · subst h; left; rfl
      · rcases List.mem_cons.mp h with h | h
        · subst h; right; right; left; rfl
        · cases h
    · rcases List.mem_cons.mp h with h | h
      · subst h
        refine ⟨rfl, fun x hx => ?_⟩
        rw [LegalState]
        fin_cases hx <;> norm_num [testNet]
      · cases h
  have h := C4_amended_draw_count_and_order testNet (constGen 0.4) none
    (fun _ h => nomatch h) (fun _ h => nomatch h) hwf hratio
  exact ⟨hratio, hwf, h.1, h.2.1⟩

/-- C5: in one `propagate_signal` step (no signal or a valid one), every
neuron of every non-clamped region follows exactly the claimed rule — with
`u` the uniform draw read at that neuron's position in the fixed draw order
and `p_fire` the per-target firing probability of its global index:
TRIGGERED moves to RECOVERING deterministically, RESTING fires to TRIGGERED
iff `u ≤ p_fire` (else stays RESTING), RECOVERING stays RECOVERING iff
`u ≤ p_fire` (else returns to RESTING), and DEAD stays DEAD. -/
theorem C5_transition_rule (net : Network) (g : RNG)
    (signal : Option (List (String × List ℚ)))
    (hsize : ∀ sig, signal = some sig → ∀ p ∈ sig, ∀ r,
      findRegion? p.1 net.regions = some r → p.2.length = r.size)
    (hknown : ∀ sig, signal = some sig → unknownNames net.regions sig = [])
    (hwf : ∀ r ∈ net.regions, r.name ∉ signalKeys signal →
      r.state.length = r.size ∧ ∀ x ∈ r.state, LegalState net.recoveryRatio x)
    (hratio : net.recoveryRatio ≠ 1) :
    ∀ k, k < net.regions.length →
      (net.regions.getD k default).name ∉ signalKeys signal →
      ∀ j, j < (net.regions.getD k default).state.length →
        ((propagate_signal net g signal).net.regions.getD k default).state.getD j 9 =
          claimTransition net.recoveryRatio
            (pFireAt net.conformation net.cachedState
              ((net.regions.getD k default).firstIndex + j))
            (g.seq (g.pos +
              ((net.regions.take k).map
                (regionDrawCount net.recoveryRatio (signalKeys signal))).sum +
              restingOrRecoveringCount net.recoveryRatio
                ((net.regions.getD k default).state.take j)))
            ((net.regions.getD k default).state.getD j 9) := by
  intro k hk hnc j hj
  obtain ⟨_, _, _, h4⟩ := propagate_spec net g signal hsize hknown hwf
  have hmem : net.regions.getD k default ∈ net.regions := by
    rw [List.getD_eq_getElem _ _ hk]
    exact List.getElem_mem hk
  have hleg := (hwf _ hmem hnc).2
  have hconv : ((net.regions.take k).map fun r =>
      if r.name ∈ signalKeys signal then 0
      else (r.state.map (drawsOf net.recoveryRatio)).sum).sum =
      ((net.regions.take k).map
        (regionDrawCount net.recoveryRatio (signalKeys signal))).sum := by
    congr 1
    apply List.map_congr_left
    intro r _
    exact drawCount_eq net.recoveryRatio hratio (signalKeys signal) r
  rw [h4 k hk hnc]
  dsimp only
  rw [updateRegionState_getD net.recoveryRatio _ _ _ _ j hj hleg]
  dsimp only
  rw [hconv, sum_drawsOf_eq net.recoveryRatio hratio]

/-- C5 witness: the test network without a signal, region `region2`
(assembly position 1), neuron 0: the RESTING check at its global index. -/
theorem C5_transition_witness :
    (testNet.recoveryRatio ≠ 1) ∧ 1 < testNet.regions.length ∧
    (testNet.regions.getD 1 default).name ∉ signalKeys none ∧
    0 < (testNet.regions.getD 1 default).state.length ∧
    ((propagate_signal testNet (constGen 0.4) none).net.regions.getD 1
        default).state.getD 0 9 =
      claimTransition testNet.recoveryRatio
        (pFireAt testNet.conformation testNet.cachedState
          ((testNet.regions.getD 1 default).firstIndex + 0))
        ((constGen 0.4).seq ((constGen 0.4).pos +
          ((testNet.regions.take 1).map
            (regionDrawCount testNet.recoveryRatio (signalKeys none))).sum +
          restingOrRecoveringCount testNet.recoveryRatio
            ((testNet.regions.getD 1 default).state.take 0)))
        ((testNet.regions.getD 1 default).state.getD 0 9) := by
  have hratio : testNet.recoveryRatio ≠ 1 := by norm_num [testNet]
  have hwf : ∀ r ∈ testNet.regions, r.name ∉ signalKeys none →
      r.state.length = r.size ∧ ∀ x ∈ r.state, LegalState testNet.recoveryRatio x := by
    intro r hr _
    rcases List.mem_cons.mp hr with h | h
    · subst h
      refine ⟨rfl, fun x hx => ?_⟩
      rw [LegalState]
      fin_cases hx <;> norm_num [testNet]
    · rcases List.mem_cons.mp h with h | h
      · subst h
        refine ⟨rfl, fun x hx => ?_⟩
        rw [LegalState]
        fin_cases hx <;> norm_num [testNet]
      · cases h
  refine ⟨hratio, by norm_num [testNet], by simp [signalKeys], by norm_num [testNet], ?_⟩
  exact C5_transition_rule testNet (constGen 0.4) none
    (fun _ h => nomatch h) (fun _ h => nomatch h) hwf hratio 1
    (by norm_num [testNet]) (by simp [signalKeys]) 0 (by norm_num [testNet])

/-! ## Claim C6: plasticity preserves bounds and sentinels -/

/-- Pointwise relation between an input conformation entry and the
corresponding output entry: the output is a sentinel exactly when the input
is, and a non-sentinel output lies in `[0, 1]`. -/
def EntryOk (e e' : Option ℝ) : Prop :=
  (e'.isNone ↔ e.isNone) ∧ ∀ x : ℝ, e' = some x → 0 ≤ x ∧ x ≤ 1

lemma foldl_inv {α β : Type} (P : β → Prop) (f : β → α → β)
    (h : ∀ b a, P b → P (f b a)) : ∀ (l : List α) (b : β), P b → P (l.foldl f b)
  | [], _, hb => hb
  | a :: l, b, hb => foldl_inv P f h l (f b a) (h b a hb)

lemma forall₂_self_map {α β : Type} {R : α → β → Prop} (g : α → β) :
    ∀ l : List α, (∀ a ∈ l, R a (g a)) → List.Forall₂ R l (l.map g)
  | [], _ => List.Forall₂.nil
  | a :: l, h => List.Forall₂.cons (h a (List.mem_cons_self a l))
      (forall₂_self_map g l fun a' ha' => h a' (List.mem_cons_of_mem a ha'))

lemma forall₂_listModify {α β : Type} {R : α → β → Prop} (g : β → β)
    (hg : ∀ a b, R a b → R a (g b)) :
    ∀ (n : ℕ) (as : List α) (bs : List β), List.Forall₂ R as bs →
      List.Forall₂ R as (listModify g n bs)
  | n, _, _, List.Forall₂.nil => by cases n <;> exact List.Forall₂.nil
  | 0, _, _, List.Forall₂.cons hab ht => List.Forall₂.cons (hg _ _ hab) ht
  | n + 1, _, _, List.Forall₂.cons hab ht =>
    List.Forall₂.cons hab (forall₂_listModify g hg n _ _ ht)

lemma entryOk_map (f : ℝ → ℝ) (hf : ∀ x : ℝ, 0 ≤ x → x ≤ 1 → 0 ≤ f x ∧ f x ≤ 1)
    (e e' : Option ℝ) (h : EntryOk e e') : EntryOk e (Option.map f e') := by
  obtain ⟨h1, h2⟩ := h
  cases e' with
  | none => exact ⟨h1, fun x hx => by cases hx⟩
  | some y =>
    refine ⟨by simpa using h1, fun x hx => ?_⟩
    rw [show Option.map f (some y) = some (f y) from rfl] at hx
    cases hx
    obtain ⟨hy0, hy1⟩ := h2 y rfl
    exact hf y hy0 hy1

/-- `updEntry` with a `[0,1]`-preserving function preserves the invariant. -/
lemma updEntry_ok (M M' : RMat) (i j : ℕ) (f : ℝ → ℝ)
    (hf : ∀ x : ℝ, 0 ≤ x → x ≤ 1 → 0 ≤ f x ∧ f x ≤ 1)
    (h : List.Forall₂ (List.Forall₂ EntryOk) M M') :
    List.Forall₂ (List.Forall₂ EntryOk) M (updEntry M' i j f) := by
  rw [updEntry]
  exact forall₂_listModify _
    (fun row row' hrow => forall₂_listModify _
      (fun e e' he => entryOk_map f hf e e' he) j row row' hrow) i M M' h

/-- C6: on a network whose decay coefficient and exploration rate lie in
`[0, 1]`, whose strengthening exponent is at least `1`, and whose
non-sentinel internal-conformation entries lie in `[0, 1]`,
`optimize_connections` keeps every non-sentinel entry in `[0, 1]` and every
sentinel a sentinel at the same position (the `Forall₂` pairs input and
output entries positionally). -/
theorem C6_optimize_preserves_bounds_and_sentinels (α ε β : ℝ)
    (internalState lastInternalState : List ℚ) (M : RMat)
    (hα0 : 0 ≤ α) (hα1 : α ≤ 1) (hε0 : 0 ≤ ε) (hε1 : ε ≤ 1) (hβ : 1 ≤ β)
    (hM : ∀ row ∈ M, ∀ e ∈ row, ∀ x : ℝ, e = some x → 0 ≤ x ∧ x ≤ 1) :
    List.Forall₂ (List.Forall₂ EntryOk) M
      (optimize_connections α ε β internalState lastInternalState M) := by
  have hdecay : List.Forall₂ (List.Forall₂ EntryOk) M (decayMat α M) := by
    rw [decayMat]
    apply forall₂_self_map
    intro row hrow
    apply forall₂_self_map
    intro e he
    cases e with
    | none => exact ⟨Iff.rfl, fun x hx => by cases hx⟩
    | some y =>
      refine ⟨Iff.rfl, fun x hx => ?_⟩
      rw [show Option.map (fun x => α + (1 - α) * x) (some y) =
        some (α + (1 - α) * y) from rfl] at hx
      cases hx
      obtain ⟨hy0, hy1⟩ := hM row hrow (some y) he y rfl
      constructor
      · nlinarith [mul_nonneg (by linarith : (0 : ℝ) ≤ 1 - α) hy0]
      · nlinarith [mul_le_mul_of_nonneg_left hy1 (by linarith : (0 : ℝ) ≤ 1 - α)]
  rw [optimize_connections]
  apply foldl_inv (List.Forall₂ (List.Forall₂ EntryOk) M) _ _ _ _ hdecay
  intro M' p hM'
  by_cases hp : p.2 = 1
  · rw [if_pos hp, exploreStrengthen]
    apply foldl_inv (List.Forall₂ (List.Forall₂ EntryOk) M) _ _ _ _ hM'
    intro M'' q hM''
    dsimp only
    have hexp := updEntry_ok M M'' q.1 p.1 (fun x => x * (1 - ε))
      (fun x hx0 hx1 =>
        ⟨mul_nonneg hx0 (by linarith), by
          show x * (1 - ε) ≤ 1
          nlinarith [mul_le_mul_of_nonneg_right hx1 (by linarith : (0 : ℝ) ≤ 1 - ε)]⟩)
      hM''
    by_cases hq : q.2 = 1
    · rw [if_pos hq]
      exact updEntry_ok M _ p.1 q.1 (fun x => x ^ β)
        (fun x hx0 hx1 =>
          ⟨Real.rpow_nonneg hx0 β,
            Real.rpow_le_one hx0 hx1 (le_trans zero_le_one hβ)⟩) hexp
    · rw [if_neg hq]
      exact hexp
  · rw [if_neg hp]
    exact hM'

/-- C6 witness: a concrete `2×2` internal conformation with sentinels on the
diagonal, decay `1/50`, exploration `1/100`, strengthening exponent `2`. -/
theorem C6_optimize_witness :
    ((0 : ℝ) ≤ 1/50 ∧ (1/50 : ℝ) ≤ 1 ∧ (0 : ℝ) ≤ 1/100 ∧ (1/100 : ℝ) ≤ 1 ∧
      (1 : ℝ) ≤ 2) ∧
    (∀ row ∈ ([[none, some (1/2)], [some (1/5), none]] : RMat),
      ∀ e ∈ row, ∀ x : ℝ, e = some x → 0 ≤ x ∧ x ≤ 1) ∧
    List.Forall₂ (List.Forall₂ EntryOk)
      ([[none, some (1/2)], [some (1/5), none]] : RMat)
      (optimize_connections (1/50) (1/100) 2 [1, 0] [1, 1]
        [[none, some (1/2)], [some (1/5), none]]) := by
  have hM : ∀ row ∈ ([[none, some (1/2)], [some (1/5), none]] : RMat),
      ∀ e ∈ row, ∀ x : ℝ, e = some x → 0 ≤ x ∧ x ≤ 1 := by
    intro row hrow e he x hx
    rcases List.mem_cons.mp hrow with h | h
    · subst h
      rcases List.mem_cons.mp he with h' | h'
      · subst h'; cases hx
      · rcases List.mem_cons.mp h' with h' | h'
        · subst h'
          cases hx
          norm_num
        · cases h'
    · rcases List.mem_cons.mp h with h | h
      · subst h
        rcases List.mem_cons.mp he with h' | h'
        · subst h'
          cases hx
          norm_num
        · rcases List.mem_cons.mp h' with h' | h'
          · subst h'; cases hx
          · cases h'
      · cases h
  exact ⟨⟨by norm_num, by norm_num, by norm_num, by norm_num, by norm_num⟩, hM,
    C6_optimize_preserves_bounds_and_sentinels (1/50) (1/100) 2 [1, 0] [1, 1]
      [[none, some (1/2)], [some (1/5), none]]
      (by norm_num) (by norm_num) (by norm_num) (by norm_num) (by norm_num) hM⟩

/-! ## Claim C10: the ball's strict speed envelope -/

lemma Vec2.norm_nonneg (v : Vec2) : 0 ≤ v.norm := Real.sqrt_nonneg _

lemma Vec2.norm_smul (c : ℝ) (v : Vec2) : (Vec2.smul c v).norm = |c| * v.norm := by
  rw [Vec2.norm, Vec2.norm, Vec2.smul]
  dsimp only
  rw [show (c * v.x) ^ 2 + (c * v.y) ^ 2 = c ^ 2 * (v.x ^ 2 + v.y ^ 2) by ring,
    Real.sqrt_mul (sq_nonneg c), Real.sqrt_sq_eq_abs]

/-- C10: `Ball.set_state` accepts a new speed exactly when its norm lies
*strictly* inside the envelope, raising `OutOfBounds` (with no mutation)
otherwise; yet `Ball.adjust_speed` — the clamp `Ball.update` applies — maps an
out-of-envelope speed to one whose norm is *exactly* the violated boundary,
which `set_state` then rejects. -/
theorem C10_set_state_strict_envelope (b : Ball) (v : Vec2) :
    (Ball.set_state b none (some v) none =
        .ok (ballSetFields b none (some v) none) ↔
      b.speedRange.1 < v.norm ∧ v.norm < b.speedRange.2) ∧
    (¬ (b.speedRange.1 < v.norm ∧ v.norm < b.speedRange.2) →
      Ball.set_state b none (some v) none = .error .outOfBounds) ∧
    (b.speedRange.1 ≤ b.speedRange.2 → 0 ≤ b.speedRange.2 →
      b.speedRange.2 < b.speed.norm →
      (b.adjust_speed).speed.norm = b.speedRange.2 ∧
      Ball.set_state b.adjust_speed none (some (b.adjust_speed).speed) none =
        .error .outOfBounds) ∧
    (0 < b.speed.norm → b.speed.norm < b.speedRange.1 →
      (b.adjust_speed).speed.norm = b.speedRange.1 ∧
      Ball.set_state b.adjust_speed none (some (b.adjust_speed).speed) none =
        .error .outOfBounds) := by
  refine ⟨?_, ?_, ?_, ?_⟩
  · constructor
    · intro h
      by_cases hc : b.speedRange.1 < v.norm ∧ v.norm < b.speedRange.2
      · exact hc
      · rw [Ball.set_state, if_neg hc] at h
        cases h
    · intro hc
      rw [Ball.set_state, if_pos hc]
  · intro hc
    rw [Ball.set_state, if_neg hc]
  · intro hle h2 hgt
    have hn : 0 < b.speed.norm := lt_of_le_of_lt h2 hgt
    have hnlt : ¬ b.speed.norm < b.speedRange.1 := by
      push_neg
      exact le_trans hle (le_of_lt hgt)
    have hadj : b.adjust_speed =
        { b with speed := Vec2.smul (b.speedRange.2 / b.speed.norm) b.speed } := by
      rw [Ball.adjust_speed]
      rw [if_neg hnlt, if_pos hgt]
    have hrange : (b.adjust_speed).speedRange = b.speedRange := by
      rw [hadj]
    have hnorm : (b.adjust_speed).speed.norm = b.speedRange.2 := by
      rw [hadj]
      show (Vec2.smul (b.speedRange.2 / b.speed.norm) b.speed).norm = b.speedRange.2
      rw [Vec2.norm_smul, abs_of_nonneg (div_nonneg h2 (le_of_lt hn)),
        div_mul_cancel₀ _ hn.ne']
    refine ⟨hnorm, ?_⟩
    rw [Ball.set_state, if_neg]
    rw [hrange, hnorm]
    intro hcon
    exact absurd hcon.2 (lt_irrefl _)
  · intro hn hlt
    have h1pos : 0 < b.speedRange.1 := lt_trans hn hlt
    have hadj : b.adjust_speed =
        { b with speed := Vec2.smul (b.speedRange.1 / b.speed.norm) b.speed } := by
      rw [Ball.adjust_speed]
      rw [if_pos hlt]
    have hrange : (b.adjust_speed).speedRange = b.speedRange := by
      rw [hadj]
    have hnorm : (b.adjust_speed).speed.norm = b.speedRange.1 := by
      rw [hadj]
      show (Vec2.smul (b.speedRange.1 / b.speed.norm) b.speed).norm = b.speedRange.1
      rw [Vec2.norm_smul, abs_of_nonneg (div_nonneg (le_of_lt h1pos) (le_of_lt hn)),
        div_mul_cancel₀ _ hn.ne']
    refine ⟨hnorm, ?_⟩
    rw [Ball.set_state, if_neg]
    rw [hrange, hnorm]
    intro hcon
    exact absurd hcon.1 (lt_irrefl _)

/-- C10 witness: a ball with envelope `(1, 5)` and speed `(6, 8)` (norm 10):
`adjust_speed` rescales it to `(3, 4)` — norm exactly 5 — which `set_state`
rejects although `update`'s own clamp just produced it. -/
theorem C10_set_state_witness :
    (1 : ℝ) ≤ 5 ∧ (0 : ℝ) ≤ 5 ∧
    (5 : ℝ) < (Ball.mk ⟨0, 0⟩ 1 ⟨6, 8⟩ (1, 5) ⟨0, 0⟩).speed.norm ∧
    ((Ball.mk ⟨0, 0⟩ 1 ⟨6, 8⟩ (1, 5) ⟨0, 0⟩).adjust_speed).speed.norm = 5 ∧
    Ball.set_state (Ball.mk ⟨0, 0⟩ 1 ⟨6, 8⟩ (1, 5) ⟨0, 0⟩).adjust_speed none
      (some ((Ball.mk ⟨0, 0⟩ 1 ⟨6, 8⟩ (1, 5) ⟨0, 0⟩).adjust_speed).speed) none =
      .error .outOfBounds := by
  have hnorm : (Ball.mk ⟨0, 0⟩ 1 ⟨6, 8⟩ (1, 5) ⟨0, 0⟩).speed.norm = 10 := by
    rw [Vec2.norm]
    dsimp only
    rw [show ((6 : ℝ) ^ 2 + 8 ^ 2) = 10 ^ 2 by norm_num,
      Real.sqrt_sq (by norm_num : (0 : ℝ) ≤ 10)]
  have hgt : (5 : ℝ) < (Ball.mk ⟨0, 0⟩ 1 ⟨6, 8⟩ (1, 5) ⟨0, 0⟩).speed.norm := by
    rw [hnorm]
    norm_num
  have h := (C10_set_state_strict_envelope (Ball.mk ⟨0, 0⟩ 1 ⟨6, 8⟩ (1, 5) ⟨0, 0⟩)
    ⟨0, 0⟩).2.2.1 (by norm_num) (by norm_num) hgt
  exact ⟨by norm_num, by norm_num, hgt, h.1, h.2⟩

end InSilicoBNN
